import Mathlib

/-!
A shallow embedding of the dependency scheduler of the `loki` repository
(`src/loki/scheduler.py`, with the source index built from
`src/loki/build/obj.py`).  Python dictionaries are modelled as association
lists with Python's update semantics, machine state is threaded explicitly,
and every Python exception path is an explicit error value.  The graphviz
rendering side channel only ever calls `graph.node` / `graph.edge`, which
touch no scheduler state; the sole scheduler-state-relevant consequence of
the backend being present is the `task.config['whitelist']` lookup inside
`Scheduler.process`, so the presence of the backend is modelled as a boolean
parameter of `process` alone.
-/

namespace Loki

/-- A configuration value: the recognised option values in the config record
are booleans (`expand`, `strict`) or collections of routine names
(`blacklist`, `ignore`, `whitelist`, `enrich`). -/
inductive CVal where
  | bool (b : Bool)
  | names (ns : List String)
deriving DecidableEq

/-- A merged per-task configuration record: a Python dict from option name
to value, modelled as an association list in insertion order. -/
abbrev Config := List (String × CVal)

/-- Python dict lookup `m[k]` / `m.get(k)` on an association list: the value
of the first (and, for dicts built via `dictInsert`, only) binding of `k`. -/
def alookup {α : Type} : List (String × α) → String → Option α
  | [], _ => none
  | (k', v) :: rest, k => if k' = k then some v else alookup rest k

/-- Python dict assignment `m[k] = v`: replaces the value of an existing
binding in place (keeping its position) or appends a fresh binding. -/
def dictInsert {α : Type} : List (String × α) → String → α → List (String × α)
  | [], k, v => [(k, v)]
  | p :: rest, k, v => if p.1 = k then (k, v) :: rest else p :: dictInsert rest k v

/-- Python errors raised by the scheduler code paths that the model covers. -/
inductive PyErr where
  | keyError (k : String)
  | typeError (m : String)
  | attributeError (m : String)
  | runtimeError (m : String)
  | indexError
  | parseError (path : String)
  | fileNotFound (path : String)
  | cycleError
deriving DecidableEq

deriving instance DecidableEq for Except

/-- Python truthiness of a configuration value, as used by
`if item.config['expand']:` and `if self.config['strict']:`. -/
def CVal.truthy : CVal → Bool
  | .bool b => b
  | .names ns => !ns.isEmpty

/-- Membership iteration over a configuration value (`child in value`):
iterating a boolean raises `TypeError` in Python. -/
def CVal.asNames : CVal → Except PyErr (List String)
  | .names ns => .ok ns
  | .bool _ => .error (.typeError "argument of type bool is not iterable")

/-- A parsed routine as consumed by the scheduler: its name, the names of its
nested member routines (`routine.members`, only their names are read), and
the names at its call statements in IR order
(`FindNodes(CallStatement).visit(routine.ir)`). -/
structure Routine where
  name : String
  members : List String
  calls : List String
deriving DecidableEq

/-- A parsed source file as consumed by the scheduler: the ordered
`all_subroutines` sequence returned by the front end. -/
structure SrcFile where
  all_subroutines : List Routine
deriving DecidableEq

/-- Outcome of handing a file to the front-end parser. -/
inductive ParseOutcome where
  | ok (f : SrcFile)
  | fail
deriving DecidableEq

/-- The file system as the scheduler sees it: a map from path to parse
outcome; a path absent from the map does not exist on disk
(`path.exists()` is false). -/
abbrev FS := List (String × ParseOutcome)

/-- The two-level configuration input (`config['default']` and
`config['routines']`). -/
structure FullConfig where
  default : Config
  routines : List (String × Config)
deriving DecidableEq

/-- Per-task config merge from `Task.__init__`:
`self.config = config['default'].copy()`, then
`if name in config['routines']: self.config.update(config['routines'][name])`. -/
def mergeConfig (fc : FullConfig) (name : String) : Config :=
  match alookup fc.routines name with
  | none => fc.default
  | some ov => ov.foldl (fun c kv => dictInsert c kv.1 kv.2) fc.default

/-- A work item (`Task` in `src/loki/scheduler.py`): name, resolved path,
parsed file handle, extracted routine handle and merged configuration.  The
gviz handle stored on the Python object is omitted: it only feeds the
rendering channel. -/
structure Task where
  name : String
  path : String
  file : Option SrcFile
  routine : Option Routine
  config : Config
deriving DecidableEq

/-- The strict-flag branch of the `except` handler in `Task.__init__`:
`if self.config['strict']: raise excinfo` (a missing key raises `KeyError`
from inside the handler), otherwise the error is logged and the task is
kept with a null routine handle. -/
def Task.strictCheck (cfg : Config) (e : PyErr) (t : Task) : Except PyErr Task :=
  match alookup cfg "strict" with
  | none => .error (.keyError "strict")
  | some v => if v.truthy then .error e else .ok t

/-- `Task.__init__`: merge the config, and if the path exists parse it and
take `self.routine = self.file.all_subroutines[0]`.  An empty
`all_subroutines` raises `IndexError` inside the `try` block (leaving
`self.file` assigned), a front-end failure raises before `self.file` is
assigned; both are routed through the strict-flag handler.  A missing path
is only logged. -/
def Task.init (name : String) (fc : FullConfig) (path : String) (fs : FS) :
    Except PyErr Task :=
  match alookup fs path with
  | none =>
      .ok { name := name, path := path, file := none, routine := none,
            config := mergeConfig fc name }
  | some (.ok f) =>
      match f.all_subroutines with
      | r :: _ =>
          .ok { name := name, path := path, file := some f, routine := some r,
                config := mergeConfig fc name }
      | [] =>
          Task.strictCheck (mergeConfig fc name) .indexError
            { name := name, path := path, file := some f, routine := none,
              config := mergeConfig fc name }
  | some .fail =>
      Task.strictCheck (mergeConfig fc name) (.parseError path)
        { name := name, path := path, file := none, routine := none,
          config := mergeConfig fc name }

/-- `Task.children`: the call names of the task's routine, excluding calls
whose lower-cased name is among the lower-cased names of the routine's own
members.  When the routine handle is null (`self.routine is None`), the
attribute accesses raise `AttributeError`. -/
def Task.children (t : Task) : Except PyErr (List String) :=
  match t.routine with
  | none => .error (.attributeError "NoneType object has no attribute ir")
  | some r =>
      let ms := r.members.map String.toLower
      .ok (r.calls.filter (fun c => !(ms.contains c.toLower)))

/-- A lightweight source object (`Obj` in `src/loki/build/obj.py`): its path
and the subroutine names its regex scan finds (`Obj.subroutines`). -/
structure Obj where
  source_path : String
  subroutines : List String
deriving DecidableEq

/-- The name-to-path map built at `Scheduler.__init__`:
`OrderedDict((r, obj) for obj in obj_list for r in obj.subroutines)`.
A duplicate key keeps its original position but its value is overwritten by
the later registration (Python dict update semantics); only the resolved
`source_path` of the stored object is read later. -/
def buildObjMap (objs : List Obj) : List (String × String) :=
  objs.foldl
    (fun m obj => obj.subroutines.foldl (fun m' r => dictInsert m' r obj.source_path) m) []

/-- The scheduler state: source index, configuration, file system, work
queue, processed list, name-to-task cache and the task graph (node list in
insertion order, edge list with parallel edges collapsed). -/
structure Scheduler where
  obj_map : List (String × String)
  config : FullConfig
  fs : FS
  queue : List Task
  processed : List Task
  item_map : List (String × Task)
  nodes : List Task
  edges : List (Task × Task)
deriving DecidableEq

/-- `Scheduler.__init__`: scan the paths into `Obj` objects, build the
`obj_map`, and start with empty queue, processed list, cache and graph. -/
def Scheduler.init (objs : List Obj) (fc : FullConfig) (fs : FS) : Scheduler :=
  { obj_map := buildObjMap objs, config := fc, fs := fs,
    queue := [], processed := [], item_map := [], nodes := [], edges := [] }

/-- The built-in dead list of the scheduler (`Scheduler._deadlist`). -/
def deadlist : List String := ["dr_hook", "abor1", "abort_surf", "flush"]

/-- `Scheduler.find_path`: resolve a routine name through `obj_map`, raising
`RuntimeError` when the name is not registered. -/
def Scheduler.find_path (s : Scheduler) (routine : String) : Except PyErr String :=
  match alookup s.obj_map routine with
  | some p => .ok p
  | none => .error (.runtimeError ("Source path not found for routine: " ++ routine))

/-- `networkx.DiGraph.add_node`: a no-op when the node is already present. -/
def addNode (ns : List Task) (t : Task) : List Task :=
  if t ∈ ns then ns else ns ++ [t]

/-- `networkx.DiGraph.add_edge`: inserts missing endpoints as nodes and
collapses parallel edges. -/
def Scheduler.add_edge (s : Scheduler) (u v : Task) : Scheduler :=
  { s with
    nodes := addNode (addNode s.nodes u) v,
    edges := if (u, v) ∈ s.edges then s.edges else s.edges ++ [(u, v)] }

/-- One iteration of the loop in `Scheduler.append`: skip a cached name,
otherwise resolve its path, construct the task, and push it onto the queue,
the cache and the graph. -/
def Scheduler.append1 (s : Scheduler) (source : String) : Except PyErr Scheduler :=
  match alookup s.item_map source with
  | some _ => .ok s
  | none =>
    match s.find_path source with
    | .error e => .error e
    | .ok path =>
      match Task.init source s.config path s.fs with
      | .error e => .error e
      | .ok item =>
          .ok { s with
                queue := s.queue ++ [item],
                item_map := s.item_map ++ [(source, item)],
                nodes := addNode s.nodes item }

/-- `Scheduler.append`: iterate `append1` over the names; an exception
aborts the call but keeps the state mutations of the earlier iterations. -/
def Scheduler.append (s : Scheduler) : List String → Scheduler × Option PyErr
  | [] => (s, none)
  | src :: rest =>
    match s.append1 src with
    | .ok s' => s'.append rest
    | .error e => (s, some e)

/-- The per-child body of the `populate` loop: skip dead-listed children,
skip blacklisted children (rendering marker only), and when `expand` is
truthy and the child is not ignored, `append` the child and add the edge
`item -> item_map[child]`.  Key accesses mirror the source:
`item.config['blacklist']` and `item.config['expand']` are plain indexing,
`item.config.get('ignore', [])` has a default. -/
def Scheduler.processChild (s : Scheduler) (item : Task) (child : String) :
    Except PyErr Scheduler :=
  if child ∈ deadlist then .ok s
  else
    match alookup item.config "blacklist" with
    | none => .error (.keyError "blacklist")
    | some blv =>
      match blv.asNames with
      | .error e => .error e
      | .ok bl =>
        if child ∈ bl then .ok s
        else
          match alookup item.config "expand" with
          | none => .error (.keyError "expand")
          | some ex =>
            if ex.truthy then
              match ((alookup item.config "ignore").getD (.names [])).asNames with
              | .error e => .error e
              | .ok ig =>
                if child ∈ ig then .ok s
                else
                  match s.append1 child with
                  | .error e => .error e
                  | .ok s1 =>
                    match alookup s1.item_map child with
                    | none => .error (.keyError child)
                    | some tchild => .ok (s1.add_edge item tchild)
            else .ok s

/-- The `for child in item.children` loop of `populate`, one child at a
time; an exception aborts the loop. -/
def Scheduler.processChildren (item : Task) : Scheduler → List String → Except PyErr Scheduler
  | s, [] => .ok s
  | s, c :: cs =>
    match s.processChild item c with
    | .ok s' => Scheduler.processChildren item s' cs
    | .error e => .error e

/-- Processing of one dequeued item in `populate`: iterate `processChild`
over `item.children` (which may itself raise for a null routine handle). -/
def Scheduler.processItem (s : Scheduler) (item : Task) : Except PyErr Scheduler :=
  match item.children with
  | .error e => .error e
  | .ok cs => Scheduler.processChildren item s cs

/-- Result of running the populate loop: final state, raised error, or fuel
exhaustion (the Python loop has no fuel; claims are stated about runs that
do terminate). -/
inductive PRes where
  | ok (s : Scheduler)
  | err (e : PyErr)
  | fuelOut
deriving DecidableEq

/-- Extract the final state of a successful populate run. -/
def PRes.getOk : PRes → Scheduler
  | .ok s => s
  | _ => Scheduler.init [] { default := [], routines := [] } []

/-- The `while len(self.queue) > 0` loop of `Scheduler.populate`. -/
def Scheduler.populateLoop : Nat → Scheduler → PRes
  | 0, s => if s.queue.isEmpty then .ok s else .fuelOut
  | Nat.succ n, s =>
    match s.queue with
    | [] => .ok s
    | item :: rest =>
      match Scheduler.processItem { s with queue := rest } item with
      | .ok s' => Scheduler.populateLoop n s'
      | .error e => .err e

/-- The extra-enrichment body in `populate`: `find_path` each configured
name and parse its file with `SourceFile.from_file` (a parse failure or
missing file raises); `enrich_calls` itself only mutates the routine
object, which is outside the modelled state. -/
def Scheduler.enrichExtra (s : Scheduler) (r : String) : Except PyErr Unit :=
  match s.find_path r with
  | .error e => .error e
  | .ok path =>
    match alookup s.fs path with
    | some (.ok _) => .ok ()
    | some .fail => .error (.parseError path)
    | none => .error (.fileNotFound path)

/-- The `for routine in item.config['enrich']` loop. -/
def Scheduler.enrichNames (s : Scheduler) : List String → Except PyErr Unit
  | [] => .ok ()
  | r :: rs =>
    match s.enrichExtra r with
    | .ok _ => Scheduler.enrichNames s rs
    | .error e => .error e

/-- The enrichment pass over one graph node: `item.enrich(...)` dereferences
`item.routine` (raising `AttributeError` for a null handle), then the
optional `'enrich'` key is consulted with a membership test and iterated. -/
def Scheduler.enrichItem (s : Scheduler) (item : Task) : Except PyErr Unit :=
  match item.routine with
  | none => .error (.attributeError "NoneType object has no attribute enrich_calls")
  | some _ =>
    match alookup item.config "enrich" with
    | none => .ok ()
    | some v =>
      match v.asNames with
      | .error e => .error e
      | .ok ns => s.enrichNames ns

/-- The `for item in self.taskgraph` enrichment loop over the graph nodes. -/
def Scheduler.enrichAll (s : Scheduler) : List Task → Except PyErr Unit
  | [] => .ok ()
  | t :: ts =>
    match s.enrichItem t with
    | .ok _ => Scheduler.enrichAll s ts
    | .error e => .error e

/-- `Scheduler.populate`: drain the queue, then run the enrichment pass over
every graph node.  Enrichment does not change the modelled state. -/
def Scheduler.populate (fuel : Nat) (s : Scheduler) : PRes :=
  match Scheduler.populateLoop fuel s with
  | .ok s' =>
    match s'.enrichAll s'.nodes with
    | .ok _ => .ok s'
    | .error e => .err e
  | r => r

/-- A node of the remaining node list with no incoming edge from another
remaining node (the pick condition of Kahn's algorithm, as realised by
`networkx.topological_sort`). -/
def noIncoming (ns : List Task) (es : List (Task × Task)) (n : Task) : Bool :=
  decide (∀ e ∈ es, ¬(e.2 = n ∧ e.1 ∈ ns))

/-- Kahn's algorithm on the node/edge lists, fuelled by the node count:
repeatedly emit the first remaining node without incoming edges; on a cycle
no node qualifies and the sort fails (`networkx` raises
`NetworkXUnfeasible`).  The order among simultaneously-ready nodes is
implementation-defined in `networkx`; every property proved below holds for
any topological order. -/
def topoGo : Nat → List Task → List (Task × Task) → Option (List Task)
  | _, [], _ => some []
  | 0, _ :: _, _ => none
  | Nat.succ k, x :: xs, es =>
    match (x :: xs).find? (noIncoming (x :: xs) es) with
    | none => none
    | some n => (topoGo k ((x :: xs).erase n) es).map (fun rest => n :: rest)

/-- `networkx.topological_sort` over the task graph. -/
def topoSort (ns : List Task) (es : List (Task × Task)) : Option (List Task) :=
  topoGo ns.length ns es

/-- The loop body sequence of `Scheduler.process` over the topological
order: apply the transformation (an in-place mutation of the routine object,
outside the modelled state), append the task to `processed`, and, when the
rendering backend is present, index `task.config['whitelist']` and test
membership for the node styling. -/
def Scheduler.processOrder (hasGraph : Bool) : Scheduler → List Task → Scheduler × Option PyErr
  | s, [] => (s, none)
  | s, task :: rest =>
    if hasGraph then
      match alookup task.config "whitelist" with
      | none => ({ s with processed := s.processed ++ [task] }, some (.keyError "whitelist"))
      | some wl =>
        match wl.asNames with
        | .error e => ({ s with processed := s.processed ++ [task] }, some e)
        | .ok _ =>
            Scheduler.processOrder hasGraph { s with processed := s.processed ++ [task] } rest
    else Scheduler.processOrder hasGraph { s with processed := s.processed ++ [task] } rest

/-- `Scheduler.process`: compute one topological order of the task graph
and process the tasks in that order. -/
def Scheduler.process (hasGraph : Bool) (s : Scheduler) : Scheduler × Option PyErr :=
  match topoSort s.nodes s.edges with
  | none => (s, some .cycleError)
  | some ord => Scheduler.processOrder hasGraph s ord

/-- A config record has key `k` bound to a name collection (so indexing it
and testing membership cannot raise). -/
def hasNamesKey (c : Config) (k : String) : Bool :=
  match alookup c k with
  | some (.names _) => true
  | _ => false

/-- A throwaway task used as the default of `Option.getD` when extracting
tasks out of computed states in the concrete examples. -/
def noTask : Task :=
  { name := "", path := "", file := none, routine := none, config := [] }

/-! ### Concrete worlds used by the examples below

`w1*`: a two-routine chain `d -> k`, fully parsable, with a complete default
config; exercises `append`/`populate`/`process`.

`c2*`: one unparsable file under a non-strict config.

`c3*`: routines `t` and `u` both calling `c`; `t`'s per-routine override
blacklists `c`, `u`'s config does not.

`c6*`: one file defining both `Foo` and `foo`.

`c8*`: one parsable routine under a config without a `whitelist` key.

`c10*`: a routine `t` calling `c` under a config that blacklists `c` and has
no `expand` key. -/

def w1objs : List Obj := [Obj.mk "d.f90" ["d"], Obj.mk "k.f90" ["k"]]

def w1fc : FullConfig :=
  ⟨[("expand", .bool true), ("strict", .bool true), ("blacklist", .names []),
    ("whitelist", .names [])], []⟩

def w1fs : FS := [("d.f90", .ok ⟨[⟨"d", [], ["k"]⟩]⟩), ("k.f90", .ok ⟨[⟨"k", [], []⟩]⟩)]

def w1s0 : Scheduler := Scheduler.init w1objs w1fc w1fs

def w1s1 : Scheduler := (w1s0.append ["d"]).1

def w1s2 : Scheduler := (Scheduler.populate 10 w1s1).getOk

def w1s3 : Scheduler := (w1s2.process false).1

def w1dT : Task := (alookup w1s2.item_map "d").getD noTask

def w1kT : Task := (alookup w1s2.item_map "k").getD noTask

def c2fc : FullConfig :=
  ⟨[("strict", .bool false), ("expand", .bool true), ("blacklist", .names [])], []⟩

def c2s0 : Scheduler := Scheduler.init [Obj.mk "bad.f90" ["bad"]] c2fc [("bad.f90", .fail)]

def c2s1 : Scheduler := (c2s0.append ["bad"]).1

def c3objs : List Obj := [Obj.mk "t.f90" ["t"], Obj.mk "u.f90" ["u"], Obj.mk "c.f90" ["c"]]

def c3fc : FullConfig :=
  ⟨[("expand", .bool true), ("strict", .bool true), ("blacklist", .names [])],
    [("t", [("blacklist", .names ["c"])])]⟩

def c3fs : FS :=
  [("t.f90", .ok ⟨[⟨"t", [], ["c"]⟩]⟩), ("u.f90", .ok ⟨[⟨"u", [], ["c"]⟩]⟩),
    ("c.f90", .ok ⟨[⟨"c", [], []⟩]⟩)]

def c3s0 : Scheduler := Scheduler.init c3objs c3fc c3fs

def c3s1 : Scheduler := (c3s0.append ["t", "u"]).1

def c3s2 : Scheduler := (Scheduler.populate 10 c3s1).getOk

def c3uT : Task := (alookup c3s2.item_map "u").getD noTask

def c3cT : Task := (alookup c3s2.item_map "c").getD noTask

def c6s0 : Scheduler :=
  Scheduler.init [Obj.mk "foo.f90" ["Foo", "foo"]]
    ⟨[("strict", .bool true), ("expand", .bool true), ("blacklist", .names [])], []⟩
    [("foo.f90", .ok ⟨[⟨"foo", [], []⟩]⟩)]

def c6s1 : Scheduler := (c6s0.append ["Foo"]).1

def c8fc : FullConfig :=
  ⟨[("expand", .bool true), ("strict", .bool true), ("blacklist", .names [])], []⟩

def c8s0 : Scheduler :=
  Scheduler.init [Obj.mk "t.f90" ["t"]] c8fc [("t.f90", .ok ⟨[⟨"t", [], []⟩]⟩)]

def c8s1 : Scheduler := (c8s0.append ["t"]).1

def c8s2 : Scheduler := (Scheduler.populate 5 c8s1).getOk

def c10fc : FullConfig :=
  ⟨[("strict", .bool false), ("blacklist", .names ["c"])], []⟩

def c10s0 : Scheduler :=
  Scheduler.init [Obj.mk "t.f90" ["t"]] c10fc [("t.f90", .ok ⟨[⟨"t", [], ["c"]⟩]⟩)]

def c10s1 : Scheduler := (c10s0.append ["t"]).1

def c10s2 : Scheduler := (Scheduler.populate 5 c10s1).getOk

def c10itemA : Task :=
  { name := "t", path := "t.f90", file := none, routine := some ⟨"t", [], ["c"]⟩,
    config := [("strict", .bool false)] }

def c10sA : Scheduler := { Scheduler.init [] ⟨[], []⟩ [] with queue := [c10itemA] }

def c10itemB : Task :=
  { name := "t", path := "t.f90", file := none, routine := some ⟨"t", [], ["c"]⟩,
    config := [("blacklist", .names ["c"])] }

/-! ### Invariants of the scheduler state

These predicates hold for every state reachable from `Scheduler.init` by
`append`/`populate` and are the backbone of the graph-shape claims. -/

/-- Every edge of the task graph connects two graph nodes. -/
def edgesInNodes (s : Scheduler) : Prop :=
  ∀ p ∈ s.edges, p.1 ∈ s.nodes ∧ p.2 ∈ s.nodes

/-- Every cache entry maps a name to a task carrying exactly that name. -/
def mapNamesOk (s : Scheduler) : Prop :=
  ∀ q ∈ s.item_map, q.2.name = q.1

/-- No edge points from a task to a child named in that task's merged
blacklist. -/
def blacklistSafe (s : Scheduler) : Prop :=
  ∀ p ∈ s.edges, ∀ l, alookup p.1.config "blacklist" = some (.names l) → p.2.name ∉ l

/-- The reachable-state invariant. -/
def Inv (s : Scheduler) : Prop := edgesInNodes s ∧ mapNamesOk s ∧ blacklistSafe s

/-! ## Basic lemmas about the association-list dictionary model -/

theorem alookup_append_left {α : Type} {m₁ m₂ : List (String × α)} {k : String} {v : α}
    (h : alookup m₁ k = some v) : alookup (m₁ ++ m₂) k = some v := by
  induction m₁ with
  | nil => simp [alookup] at h
  | cons p rest ih =>
    simp only [alookup, List.cons_append] at h ⊢
    by_cases hk : p.1 = k
    · rw [if_pos hk] at h ⊢; exact h
    · rw [if_neg hk] at h ⊢; exact ih h

theorem alookup_append_right {α : Type} {m₁ : List (String × α)} (m₂ : List (String × α))
    {k : String} (h : alookup m₁ k = none) : alookup (m₁ ++ m₂) k = alookup m₂ k := by
  induction m₁ with
  | nil => simp
  | cons p rest ih =>
    simp only [alookup, List.cons_append] at h ⊢
    by_cases hk : p.1 = k
    · rw [if_pos hk] at h; exact absurd h (by simp)
    · rw [if_neg hk] at h ⊢; exact ih h

theorem alookup_mem {α : Type} {m : List (String × α)} {k : String} {v : α}
    (h : alookup m k = some v) : (k, v) ∈ m := by
  induction m with
  | nil => simp [alookup] at h
  | cons p rest ih =>
    simp only [alookup] at h
    by_cases hk : p.1 = k
    · rw [if_pos hk] at h
      have hv : p.2 = v := by injection h
      have hp : (k, v) = p := by cases p; simp_all
      rw [hp]
      exact List.mem_cons_self _ _
    · rw [if_neg hk] at h
      exact List.mem_cons_of_mem _ (ih h)

theorem alookup_dictInsert {α : Type} (m : List (String × α)) (k : String) (v : α)
    (k' : String) :
    alookup (dictInsert m k v) k' = if k' = k then some v else alookup m k' := by
  induction m with
  | nil => simp [dictInsert, alookup, eq_comm]
  | cons p rest ih =>
    simp only [dictInsert]
    by_cases hp : p.1 = k
    · simp only [if_pos hp, alookup]
      by_cases hk : k' = k
      · simp [hk, eq_comm]
      · have : ¬ (k = k') := fun h => hk h.symm
        have hpk : ¬ (p.1 = k') := by rw [hp]; exact this
        simp [hk, this, hpk]
    · simp only [if_neg hp, alookup]
      by_cases hpk : p.1 = k'
      · have : ¬ (k' = k) := by
          intro h
          exact hp (by rw [hpk, h])
        simp [hpk, this]
      · simp [hpk, ih]

theorem alookup_foldl_dictInsert_not_mem {rs : List String} {r : String}
    (h : r ∉ rs) (p : String) (m : List (String × String)) :
    alookup (rs.foldl (fun m' r' => dictInsert m' r' p) m) r = alookup m r := by
  induction rs generalizing m with
  | nil => simp
  | cons x xs ih =>
    have hx : r ≠ x := fun hr => h (by simp [hr])
    have hxs : r ∉ xs := fun hr => h (by simp [hr])
    simp only [List.foldl_cons]
    rw [ih hxs, alookup_dictInsert]
    simp [hx]

theorem alookup_foldl_dictInsert_mem {rs : List String} {r : String}
    (h : r ∈ rs) (p : String) (m : List (String × String)) :
    alookup (rs.foldl (fun m' r' => dictInsert m' r' p) m) r = some p := by
  induction rs generalizing m with
  | nil => simp at h
  | cons x xs ih =>
    simp only [List.foldl_cons]
    by_cases hxs : r ∈ xs
    · exact ih hxs _
    · have hx : r = x := by
        rcases List.mem_cons.mp h with h' | h'
        · exact h'
        · exact absurd h' hxs
      rw [alookup_foldl_dictInsert_not_mem hxs, alookup_dictInsert]
      simp [hx]

/-- A successful `strictCheck` returns the task it was given. -/
theorem Task.strictCheck_ok {cfg : Config} {e : PyErr} {t t' : Task}
    (h : Task.strictCheck cfg e t = .ok t') : t' = t := by
  unfold Task.strictCheck at h
  split at h
  · exact absurd h (by simp)
  · split at h
    · exact absurd h (by simp)
    · cases h; rfl

/-- `Task.init` always stores the requested name on the created task. -/
theorem Task.init_name {n : String} {fc : FullConfig} {p : String} {fs : FS} {t : Task}
    (h : Task.init n fc p fs = .ok t) : t.name = n := by
  unfold Task.init at h
  split at h
  · cases h; rfl
  · split at h
    · cases h; rfl
    · rw [Task.strictCheck_ok h]
  · rw [Task.strictCheck_ok h]

/-! ## C5: resolution order for duplicate definitions in the source index -/

/-- C5 (amended): within one `Scheduler` construction, a later scan
overwrites an earlier name-to-path mapping for the same symbol name:
resolving a name defined by the last-scanned object yields that object's
path, not the path of an earlier-scanned file defining the same name. -/
theorem objmap_last_scan_wins (objs : List Obj) (o : Obj) (r : String)
    (h : r ∈ o.subroutines) :
    alookup (buildObjMap (objs ++ [o])) r = some o.source_path := by
  unfold buildObjMap
  rw [List.foldl_append]
  exact alookup_foldl_dictInsert_mem h _ _

/-- Witness for `objmap_last_scan_wins` at two files both defining `foo`. -/
theorem objmap_last_scan_wins_witness :
    "foo" ∈ (Obj.mk "b.f90" ["foo"]).subroutines ∧
      alookup (buildObjMap ([Obj.mk "a.f90" ["foo"]] ++ [Obj.mk "b.f90" ["foo"]])) "foo"
        = some "b.f90" :=
  ⟨by decide, objmap_last_scan_wins [Obj.mk "a.f90" ["foo"]] (Obj.mk "b.f90" ["foo"]) "foo"
    (by decide)⟩

/-- C5 counterexample: with `a.f90` scanned before `b.f90`, both defining
`foo`, the index resolves `foo` to the later `b.f90`, not to the
earlier-scanned `a.f90` as the claim states. -/
theorem objmap_not_first_scan_cx :
    alookup (buildObjMap [Obj.mk "a.f90" ["foo"], Obj.mk "b.f90" ["foo"]]) "foo"
        = some "b.f90" ∧
      ¬ alookup (buildObjMap [Obj.mk "a.f90" ["foo"], Obj.mk "b.f90" ["foo"]]) "foo"
        = some "a.f90" := by
  decide

/-! ## C4: an unresolvable name aborts `append` and leaves the state alone -/

/-- C4: appending a name with no entry in the source index raises the
unresolved-symbol `RuntimeError` before any task is constructed: the queue,
the cache and the graph are untouched (the returned state is the input
state). -/
theorem append_unresolved_raises_state_unchanged (s : Scheduler) (n : String)
    (hobj : alookup s.obj_map n = none) (hitem : alookup s.item_map n = none) :
    s.append [n] =
      (s, some (.runtimeError ("Source path not found for routine: " ++ n))) := by
  simp [Scheduler.append, Scheduler.append1, Scheduler.find_path, hobj, hitem]

/-- Witness for `append_unresolved_raises_state_unchanged` on an empty
index. -/
theorem append_unresolved_raises_state_unchanged_witness :
    alookup (Scheduler.init [] ⟨[], []⟩ []).obj_map "ghost" = none ∧
      alookup (Scheduler.init [] ⟨[], []⟩ []).item_map "ghost" = none ∧
      (Scheduler.init [] ⟨[], []⟩ []).append ["ghost"] =
        (Scheduler.init [] ⟨[], []⟩ [],
          some (.runtimeError ("Source path not found for routine: " ++ "ghost"))) :=
  ⟨by decide, by decide,
    append_unresolved_raises_state_unchanged _ _ (by decide) (by decide)⟩

/-! ## C7: idempotence of `append` -/

/-- C7: `append([name])` is idempotent — repeating the call with the same
name is a no-op returning the identical state and outcome; and a successful
first call on a fresh name adds exactly one cache entry, one queue entry
and one graph node. -/
theorem append_idempotent (s : Scheduler) (n : String) :
    ((s.append [n]).1.append [n] = s.append [n]) ∧
      (alookup s.item_map n = none → ∀ s', s.append [n] = (s', none) →
        ∃ t, s'.item_map = s.item_map ++ [(n, t)] ∧ s'.queue = s.queue ++ [t] ∧
          s'.nodes = addNode s.nodes t) := by
  constructor
  · rcases hm : alookup s.item_map n with _ | t
    · rcases hp : s.find_path n with e | path
      · simp [Scheduler.append, Scheduler.append1, hm, hp]
      · rcases ht : Task.init n s.config path s.fs with e | item
        · simp [Scheduler.append, Scheduler.append1, hm, hp, ht]
        · have hm' : alookup (s.item_map ++ [(n, item)]) n = some item := by
            rw [alookup_append_right _ hm]; simp [alookup]
          simp [Scheduler.append, Scheduler.append1, hm, hp, ht, hm']
    · simp [Scheduler.append, Scheduler.append1, hm]
  · intro hm s' h
    rcases hp : s.find_path n with e | path
    · simp [Scheduler.append, Scheduler.append1, hm, hp] at h
    · rcases ht : Task.init n s.config path s.fs with e | item
      · simp [Scheduler.append, Scheduler.append1, hm, hp, ht] at h
      · simp [Scheduler.append, Scheduler.append1, hm, hp, ht] at h
        exact ⟨item, by simp [← h]⟩

/-- The one-file world used to witness `append_idempotent`. -/
def w7s : Scheduler :=
  Scheduler.init [Obj.mk "t.f90" ["t"]] ⟨[("strict", .bool true)], []⟩
    [("t.f90", .ok ⟨[⟨"t", [], []⟩]⟩)]

/-- Witness for `append_idempotent` on the one-file world `w7s`. -/
theorem append_idempotent_witness :
    alookup w7s.item_map "t" = none ∧
      (w7s.append ["t"]).1.append ["t"] = w7s.append ["t"] ∧
      ∃ t, (w7s.append ["t"]).1.item_map = w7s.item_map ++ [("t", t)] ∧
        (w7s.append ["t"]).1.queue = w7s.queue ++ [t] ∧
        (w7s.append ["t"]).1.nodes = addNode w7s.nodes t :=
  ⟨by decide, (append_idempotent w7s "t").1,
    (append_idempotent w7s "t").2 (by decide) _ (by decide)⟩

/-! ## C9: the routine handle is always `all_subroutines[0]` -/

/-- C9: whenever the resolved file parses successfully and defines at least
one subroutine, the constructed task's routine handle is the first entry of
`all_subroutines`, irrespective of the task's own name. -/
theorem task_routine_is_first_subroutine (name : String) (fc : FullConfig)
    (path : String) (fs : FS) (f : SrcFile) (r : Routine) (rest : List Routine)
    (hfs : alookup fs path = some (.ok f)) (hsub : f.all_subroutines = r :: rest) :
    Task.init name fc path fs =
      .ok { name := name, path := path, file := some f, routine := some r,
            config := mergeConfig fc name } := by
  simp [Task.init, hfs, hsub]

/-- Witness for `task_routine_is_first_subroutine`: a task named after the
second subroutine of its file wraps the first one, whose name differs. -/
theorem task_routine_is_first_subroutine_witness :
    Task.init "subb" ⟨[("strict", .bool true)], []⟩ "m.f90"
        [("m.f90", .ok ⟨[⟨"suba", [], []⟩, ⟨"subb", [], []⟩]⟩)] =
      .ok { name := "subb", path := "m.f90",
            file := some ⟨[⟨"suba", [], []⟩, ⟨"subb", [], []⟩]⟩,
            routine := some ⟨"suba", [], []⟩,
            config := mergeConfig ⟨[("strict", .bool true)], []⟩ "subb" } ∧
      Routine.name ⟨"suba", [], []⟩ ≠ "subb" :=
  ⟨task_routine_is_first_subroutine "subb" _ "m.f90" _ _ ⟨"suba", [], []⟩
      [⟨"subb", [], []⟩] (by decide) rfl,
    by decide⟩

/-! ## Lemmas about the topological sort -/

/-- Every element the sort emits came from the node list. -/
theorem topoGo_subset :
    ∀ (k : Nat) (ns : List Task) (es : List (Task × Task)) (ord : List Task),
      topoGo k ns es = some ord → ∀ x ∈ ord, x ∈ ns := by
  intro k
  induction k with
  | zero =>
    intro ns es ord h x hx
    cases ns with
    | nil =>
      simp only [topoGo] at h
      cases h
      simp at hx
    | cons y ys => simp [topoGo] at h
  | succ k ih =>
    intro ns es ord h x hx
    cases ns with
    | nil =>
      simp only [topoGo] at h
      cases h
      simp at hx
    | cons y ys =>
      simp only [topoGo] at h
      split at h
      · exact absurd h (by simp)
      · rename_i n hf
        rcases hrest : topoGo k ((y :: ys).erase n) es with _ | rest
        · rw [hrest] at h; exact absurd h (by simp)
        · rw [hrest] at h
          simp only [Option.map_some'] at h
          cases h
          rcases List.mem_cons.mp hx with rfl | hx'
          · exact List.mem_of_find?_eq_some hf
          · exact List.erase_subset _ _ (ih _ _ _ hrest x hx')

/-- Every node makes it into a successful sort's output. -/
theorem topoGo_mem :
    ∀ (k : Nat) (ns : List Task) (es : List (Task × Task)) (ord : List Task),
      topoGo k ns es = some ord → ∀ x ∈ ns, x ∈ ord := by
  intro k
  induction k with
  | zero =>
    intro ns es ord h x hx
    cases ns with
    | nil => simp at hx
    | cons y ys => simp [topoGo] at h
  | succ k ih =>
    intro ns es ord h x hx
    cases ns with
    | nil => simp at hx
    | cons y ys =>
      simp only [topoGo] at h
      split at h
      · exact absurd h (by simp)
      · rename_i n hf
        rcases hrest : topoGo k ((y :: ys).erase n) es with _ | rest
        · rw [hrest] at h; exact absurd h (by simp)
        · rw [hrest] at h
          simp only [Option.map_some'] at h
          cases h
          by_cases hxn : x = n
          · simp [hxn]
          · have hx' : x ∈ (y :: ys).erase n := (List.mem_erase_of_ne hxn).mpr hx
            exact List.mem_cons_of_mem _ (ih _ _ _ hrest x hx')

/-- The key ordering property: along every edge `(a, b)` of the graph, a
successful sort places `a` strictly before `b`. -/
theorem topoGo_order :
    ∀ (k : Nat) (ns : List Task) (es : List (Task × Task)) (ord : List Task) (a b : Task),
      topoGo k ns es = some ord → (a, b) ∈ es → a ∈ ns → b ∈ ns →
      ord.indexOf a < ord.indexOf b := by
  intro k
  induction k with
  | zero =>
    intro ns es ord a b h hab ha hb
    cases ns with
    | nil => simp at ha
    | cons y ys => simp [topoGo] at h
  | succ k ih =>
    intro ns es ord a b h hab ha hb
    cases ns with
    | nil => simp at ha
    | cons y ys =>
      simp only [topoGo] at h
      split at h
      · exact absurd h (by simp)
      · rename_i n hf
        rcases hrest : topoGo k ((y :: ys).erase n) es with _ | rest
        · rw [hrest] at h; exact absurd h (by simp)
        · rw [hrest] at h
          simp only [Option.map_some'] at h
          cases h
          have hno := List.find?_some hf
          unfold noIncoming at hno
          have hP : ∀ e ∈ es, ¬(e.2 = n ∧ e.1 ∈ (y :: ys)) := of_decide_eq_true hno
          have hbn : b ≠ n := fun hbn' => hP (a, b) hab ⟨hbn', ha⟩
          by_cases han : a = n
          · subst han
            rw [List.indexOf_cons_self, List.indexOf_cons_ne _ (fun h' => hbn h'.symm)]
            exact Nat.succ_pos _
          · have ha' : a ∈ (y :: ys).erase n := (List.mem_erase_of_ne han).mpr ha
            have hb' : b ∈ (y :: ys).erase n := (List.mem_erase_of_ne hbn).mpr hb
            have hlt := ih _ _ _ a b hrest hab ha' hb'
            rw [List.indexOf_cons_ne _ (fun h' => han h'.symm),
              List.indexOf_cons_ne _ (fun h' => hbn h'.symm)]
            exact Nat.succ_lt_succ hlt

/-! ## C8: the rendering backend and scheduler behaviour -/

/-- The processing loop is insensitive to the rendering backend as long as
every task to be processed carries a `whitelist` name collection. -/
theorem processOrder_graph_oblivious :
    ∀ (ord : List Task) (s : Scheduler),
      (∀ t ∈ ord, hasNamesKey t.config "whitelist" = true) →
      Scheduler.processOrder true s ord = Scheduler.processOrder false s ord := by
  intro ord
  induction ord with
  | nil => intro s _; rfl
  | cons t rest ih =>
    intro s h
    have ht := h t (List.mem_cons_self _ _)
    unfold hasNamesKey at ht
    rcases hw : alookup t.config "whitelist" with _ | v
    · rw [hw] at ht; simp at ht
    · rw [hw] at ht
      cases v with
      | bool b => simp at ht
      | names ns =>
        have hstep : Scheduler.processOrder true s (t :: rest)
            = Scheduler.processOrder true { s with processed := s.processed ++ [t] } rest := by
          simp [Scheduler.processOrder, hw, CVal.asNames]
        rw [hstep, ih _ (fun x hx => h x (List.mem_cons_of_mem _ hx))]
        simp [Scheduler.processOrder]

/-- C8 (amended): discovery (`append`, `populate`) never reads the rendering
backend, and `process` is insensitive to it provided every graph node's
merged config binds `whitelist` to a name collection; without that binding
the backend-present run raises `KeyError` where the backend-absent run
succeeds (see the counterexample). -/
theorem process_graph_backend_oblivious (s : Scheduler)
    (h : ∀ t ∈ s.nodes, hasNamesKey t.config "whitelist" = true) :
    s.process true = s.process false := by
  unfold Scheduler.process
  rcases hts : topoSort s.nodes s.edges with _ | ord
  · rfl
  · exact processOrder_graph_oblivious ord s
      (fun t ht => h t (topoGo_subset _ _ _ _ hts t ht))

/-- Witness for `process_graph_backend_oblivious` on the populated `w1`
world, whose config carries a `whitelist`. -/
theorem process_graph_backend_oblivious_witness :
    (∀ t ∈ w1s2.nodes, hasNamesKey t.config "whitelist" = true) ∧
      w1s2.process true = w1s2.process false :=
  ⟨by decide, process_graph_backend_oblivious w1s2 (by decide)⟩

/-- C8 counterexample: with a merged config lacking the `whitelist` key, a
populated one-node graph processes fine without the rendering backend but
raises `KeyError('whitelist')` with it — the optional side channel does
alter observable behaviour. -/
theorem graph_backend_whitelist_keyerror_cx :
    Scheduler.populate 5 c8s1 = .ok c8s2 ∧
      (c8s2.process false).2 = none ∧
      (c8s2.process false).1.processed.length = 1 ∧
      (c8s2.process true).2 = some (.keyError "whitelist") := by
  decide

/-! ## C2: non-strict parse failure -/

/-- C2 (code bug): under `strict=false`, a file that fails to parse leaves
the task in the graph with a null routine handle — exactly as the spec says
— but `Task.children` then raises `AttributeError` instead of returning the
empty collection, so `populate()` aborts instead of treating the task as a
childless leaf. -/
theorem nonstrict_parse_failure_children_raises :
    (c2s0.append ["bad"]).2 = none ∧
      c2s1.nodes.length = 1 ∧
      (∀ t ∈ c2s1.nodes,
        t.routine = none ∧
          t.children = .error (.attributeError "NoneType object has no attribute ir")) ∧
      Scheduler.populate 5 c2s1 =
        .err (.attributeError "NoneType object has no attribute ir") := by
  decide

/-! ## C6: task identity is exact-string, not case-insensitive -/

/-- C6 (amended): the task cache deduplicates on the exact name string. A
successful `append` of a fresh name adds a cache entry under that exact
name, and leaves the lookup of every other name — including one differing
only in letter case — unchanged, so a case variant later spawns its own
separate task. -/
theorem task_identity_case_sensitive (s : Scheduler) (a : String) (s₁ : Scheduler)
    (ha : alookup s.item_map a = none) (h : s.append1 a = .ok s₁) :
    (∃ ta, alookup s₁.item_map a = some ta ∧ ta.name = a) ∧
      s₁.item_map.length = s.item_map.length + 1 ∧
      ∀ b, b ≠ a → alookup s₁.item_map b = alookup s.item_map b := by
  rcases hp : s.find_path a with e | path
  · simp [Scheduler.append1, ha, hp] at h
  · rcases ht : Task.init a s.config path s.fs with e | ta
    · simp [Scheduler.append1, ha, hp, ht] at h
    · simp only [Scheduler.append1, ha, hp, ht] at h
      cases h
      refine ⟨⟨ta, ?_, Task.init_name ht⟩, by simp, ?_⟩
      · show alookup (s.item_map ++ [(a, ta)]) a = some ta
        rw [alookup_append_right _ ha]
        simp [alookup]
      · intro b hb
        show alookup (s.item_map ++ [(a, ta)]) b = alookup s.item_map b
        rcases hsb : alookup s.item_map b with _ | v
        · rw [alookup_append_right _ hsb]
          simp [alookup, Ne.symm hb]
        · exact alookup_append_left hsb

/-- Witness for `task_identity_case_sensitive` on the `Foo`/`foo` world. -/
theorem task_identity_case_sensitive_witness :
    alookup c6s0.item_map "Foo" = none ∧
      ((∃ ta, alookup c6s1.item_map "Foo" = some ta ∧ ta.name = "Foo") ∧
        c6s1.item_map.length = c6s0.item_map.length + 1 ∧
        ∀ b, b ≠ "Foo" → alookup c6s1.item_map b = alookup c6s0.item_map b) :=
  ⟨by decide, task_identity_case_sensitive c6s0 "Foo" c6s1 (by decide) (by decide)⟩

/-- C6 counterexample: appending `Foo` and `foo` — two names that differ
only in letter case (equal after per-character lower-casing) — yields two
cache entries, two queue entries and two graph nodes, not one. -/
theorem case_variants_two_tasks_cx :
    "Foo".data.map Char.toLower = "foo".data.map Char.toLower ∧
      ("Foo" : String) ≠ "foo" ∧
      (c6s0.append ["Foo", "foo"]).2 = none ∧
      (c6s0.append ["Foo", "foo"]).1.item_map.length = 2 ∧
      (c6s0.append ["Foo", "foo"]).1.nodes.length = 2 ∧
      (c6s0.append ["Foo", "foo"]).1.queue.length = 2 := by
  decide

/-! ## C10: which config keys `populate` requires -/

theorem processChild_skip_dead {s : Scheduler} {item : Task} {c : String}
    (h : c ∈ deadlist) : s.processChild item c = .ok s := by
  simp [Scheduler.processChild, h]

theorem processChild_missing_blacklist {s : Scheduler} {item : Task} {c : String}
    (hc : c ∉ deadlist) (hbl : alookup item.config "blacklist" = none) :
    s.processChild item c = .error (.keyError "blacklist") := by
  simp [Scheduler.processChild, hc, hbl]

theorem processChild_skip_blacklisted {s : Scheduler} {item : Task} {c : String}
    {bl : List String} (hbl : alookup item.config "blacklist" = some (.names bl))
    (hc : c ∈ bl) : s.processChild item c = .ok s := by
  by_cases hd : c ∈ deadlist
  · simp [Scheduler.processChild, hd]
  · simp [Scheduler.processChild, hd, hbl, CVal.asNames, hc]

theorem processChildren_missing_blacklist {item : Task}
    (hbl : alookup item.config "blacklist" = none) :
    ∀ (cs : List String) (s : Scheduler), (∃ c ∈ cs, c ∉ deadlist) →
      Scheduler.processChildren item s cs = .error (.keyError "blacklist") := by
  intro cs
  induction cs with
  | nil => intro s h; simp at h
  | cons c cs ih =>
    intro s h
    by_cases hd : c ∈ deadlist
    · have hex : ∃ x ∈ cs, x ∉ deadlist := by
        rcases h with ⟨x, hx, hxd⟩
        rcases List.mem_cons.mp hx with rfl | hx'
        · exact absurd hd hxd
        · exact ⟨x, hx', hxd⟩
      simp only [Scheduler.processChildren, processChild_skip_dead hd]
      exact ih s hex
    · simp [Scheduler.processChildren, processChild_missing_blacklist hd hbl]

theorem processChildren_all_skipped {item : Task} {bl : List String}
    (hbl : alookup item.config "blacklist" = some (.names bl)) :
    ∀ (cs : List String) (s : Scheduler), (∀ c ∈ cs, c ∈ deadlist ∨ c ∈ bl) →
      Scheduler.processChildren item s cs = .ok s := by
  intro cs
  induction cs with
  | nil => intro s _; rfl
  | cons c cs ih =>
    intro s h
    have hrest : ∀ x ∈ cs, x ∈ deadlist ∨ x ∈ bl :=
      fun x hx => h x (List.mem_cons_of_mem _ hx)
    rcases h c (List.mem_cons_self _ _) with hd | hb
    · simp [Scheduler.processChildren, processChild_skip_dead hd, ih s hrest]
    · simp [Scheduler.processChildren, processChild_skip_blacklisted hbl hb, ih s hrest]

/-- C10 (amended): `populate` indexes `'blacklist'` for every non-dead-listed
child, so a task with such a child and no `'blacklist'` key aborts the loop
with `KeyError('blacklist')`; but `'expand'` is only indexed for children
that also pass the blacklist filter — a task all of whose non-dead-listed
children are blacklisted is processed successfully even with no `'expand'`
key (`'ignore'` and `'enrich'` are optional accesses throughout). -/
theorem populate_config_key_accesses :
    (∀ (s : Scheduler) (item : Task) (rest : List Task) (cs : List String) (n : Nat),
        s.queue = item :: rest → item.children = .ok cs →
        (∃ c ∈ cs, c ∉ deadlist) → alookup item.config "blacklist" = none →
        Scheduler.populateLoop (n + 1) s = .err (.keyError "blacklist")) ∧
      (∀ (s : Scheduler) (item : Task) (cs : List String) (bl : List String),
        item.children = .ok cs →
        alookup item.config "blacklist" = some (.names bl) →
        alookup item.config "expand" = none →
        (∀ c ∈ cs, c ∈ deadlist ∨ c ∈ bl) →
        Scheduler.processItem s item = .ok s) := by
  constructor
  · intro s item rest cs n hq hc hex hbl
    have hpi : Scheduler.processItem { s with queue := rest } item
        = .error (.keyError "blacklist") := by
      simp [Scheduler.processItem, hc, processChildren_missing_blacklist hbl _ _ hex]
    simp [Scheduler.populateLoop, hq, hpi]
  · intro s item cs bl hc hbl _ hall
    simp [Scheduler.processItem, hc, processChildren_all_skipped hbl _ _ hall]

/-- Witness for `populate_config_key_accesses`: a missing `'blacklist'` key
aborts the loop, while a missing `'expand'` key with an all-blacklisted
child list does not. -/
theorem populate_config_key_accesses_witness :
    Scheduler.populateLoop 1 c10sA = .err (.keyError "blacklist") ∧
      Scheduler.processItem (Scheduler.init [] ⟨[], []⟩ []) c10itemB
        = .ok (Scheduler.init [] ⟨[], []⟩ []) :=
  ⟨populate_config_key_accesses.1 c10sA c10itemA [] ["c"] 0 rfl (by decide) (by decide)
      (by decide),
    populate_config_key_accesses.2 _ c10itemB ["c"] ["c"] (by decide) (by decide) (by decide)
      (by decide)⟩

/-- C10 counterexample: a task whose only child is non-dead-listed but
blacklisted populates successfully although its merged config has no
`'expand'` key — the claim's unconditional `KeyError` does not occur. -/
theorem populate_expand_key_optional_cx :
    (c10s0.append ["t"]).2 = none ∧
      alookup (mergeConfig c10fc "t") "expand" = none ∧
      (∀ t ∈ c10s1.queue, t.children = .ok ["c"]) ∧
      "c" ∉ deadlist ∧
      Scheduler.populate 5 c10s1 = .ok c10s2 := by
  decide

/-! ## Invariant preservation through discovery -/

theorem mem_addNode_self (ns : List Task) (t : Task) : t ∈ addNode ns t := by
  unfold addNode
  split
  · assumption
  · simp

theorem mem_addNode_of_mem {ns : List Task} {x : Task} (t : Task) (h : x ∈ ns) :
    x ∈ addNode ns t := by
  unfold addNode
  split
  · exact h
  · exact List.mem_append_left _ h

theorem CVal.asNames_ok {v : CVal} {l : List String} (h : v.asNames = .ok l) :
    v = .names l := by
  cases v with
  | bool b => simp [CVal.asNames] at h
  | names ns =>
    simp [CVal.asNames] at h
    rw [h]

theorem add_edge_edges_sub {s : Scheduler} {u v : Task} {p : Task × Task}
    (hp : p ∈ (s.add_edge u v).edges) : p ∈ s.edges ∨ p = (u, v) := by
  unfold Scheduler.add_edge at hp
  dsimp only at hp
  split at hp
  · exact Or.inl hp
  · rcases List.mem_append.mp hp with h | h
    · exact Or.inl h
    · simp at h
      exact Or.inr h

theorem add_edge_nodes_mem {s : Scheduler} {u v x : Task} (h : x ∈ s.nodes) :
    x ∈ (s.add_edge u v).nodes :=
  mem_addNode_of_mem _ (mem_addNode_of_mem _ h)

/-- A successful `append1` preserves the invariant, keeps the processed list
and the edge set, and only grows the node list. -/
theorem append1_inv {s s' : Scheduler} {c : String} (h : s.append1 c = .ok s')
    (hinv : Inv s) :
    Inv s' ∧ s'.processed = s.processed ∧ s'.edges = s.edges ∧
      (∀ x ∈ s.nodes, x ∈ s'.nodes) := by
  rcases hm : alookup s.item_map c with _ | t
  · rcases hp : s.find_path c with e | path
    · simp [Scheduler.append1, hm, hp] at h
    · rcases ht : Task.init c s.config path s.fs with e | item
      · simp [Scheduler.append1, hm, hp, ht] at h
      · simp only [Scheduler.append1, hm, hp, ht] at h
        cases h
        obtain ⟨hen, hmn, hbs⟩ := hinv
        refine ⟨⟨?_, ?_, ?_⟩, rfl, rfl, ?_⟩
        · intro p hp'
          obtain ⟨h1, h2⟩ := hen p hp'
          exact ⟨mem_addNode_of_mem _ h1, mem_addNode_of_mem _ h2⟩
        · intro q hq
          rcases List.mem_append.mp hq with hq' | hq'
          · exact hmn q hq'
          · simp at hq'
            rw [hq']
            exact Task.init_name ht
        · exact hbs
        · intro x hx
          exact mem_addNode_of_mem _ hx
  · simp only [Scheduler.append1, hm] at h
    cases h
    exact ⟨hinv, rfl, rfl, fun x hx => hx⟩

/-- A successful `processChild` preserves the invariant, keeps the processed
list and only grows the node list. -/
theorem processChild_inv {s s' : Scheduler} {item : Task} {c : String}
    (h : s.processChild item c = .ok s') (hinv : Inv s) :
    Inv s' ∧ s'.processed = s.processed ∧ (∀ x ∈ s.nodes, x ∈ s'.nodes) := by
  by_cases hd : c ∈ deadlist
  · simp only [Scheduler.processChild, if_pos hd] at h
    cases h
    exact ⟨hinv, rfl, fun x hx => hx⟩
  · rcases hbl : alookup item.config "blacklist" with _ | blv
    · simp [Scheduler.processChild, hd, hbl] at h
    · rcases hasn : blv.asNames with e | bl
      · simp [Scheduler.processChild, hd, hbl, hasn] at h
      · by_cases hcb : c ∈ bl
        · simp only [Scheduler.processChild, if_neg hd, hbl, hasn, if_pos hcb] at h
          cases h
          exact ⟨hinv, rfl, fun x hx => hx⟩
        · rcases hex : alookup item.config "expand" with _ | ex
          · simp [Scheduler.processChild, hd, hbl, hasn, hcb, hex] at h
          · by_cases htr : ex.truthy = true
            · rcases hig : ((alookup item.config "ignore").getD (.names [])).asNames
                with e | ig
              · simp [Scheduler.processChild, hd, hbl, hasn, hcb, hex, htr, hig] at h
              · by_cases hci : c ∈ ig
                · simp only [Scheduler.processChild, if_neg hd, hbl, hasn, if_neg hcb,
                    hex, if_pos htr, hig, if_pos hci] at h
                  cases h
                  exact ⟨hinv, rfl, fun x hx => hx⟩
                · rcases ha1 : s.append1 c with e | s1
                  · simp [Scheduler.processChild, hd, hbl, hasn, hcb, hex, htr, hig,
                      hci, ha1] at h
                  · rcases htc : alookup s1.item_map c with _ | tchild
                    · simp [Scheduler.processChild, hd, hbl, hasn, hcb, hex, htr, hig,
                        hci, ha1, htc] at h
                    · simp only [Scheduler.processChild, if_neg hd, hbl, hasn,
                        if_neg hcb, hex, if_pos htr, hig, if_neg hci, ha1, htc] at h
                      cases h
                      obtain ⟨⟨hen1, hmn1, hbs1⟩, hp1, he1, hn1⟩ := append1_inv ha1 hinv
                      have htn : tchild.name = c := hmn1 (c, tchild) (alookup_mem htc)
                      refine ⟨⟨?_, ?_, ?_⟩, hp1, ?_⟩
                      · intro p hp'
                        rcases add_edge_edges_sub hp' with hp'' | hp''
                        · obtain ⟨h1, h2⟩ := hen1 p hp''
                          exact ⟨add_edge_nodes_mem h1, add_edge_nodes_mem h2⟩
                        · rw [hp'']
                          exact ⟨mem_addNode_of_mem _ (mem_addNode_self _ _),
                            mem_addNode_self _ _⟩
                      · exact hmn1
                      · intro p hp' l hl
                        rcases add_edge_edges_sub hp' with hp'' | hp''
                        · exact hbs1 p hp'' l hl
                        · rw [hp''] at hl ⊢
                          have hblv : blv = .names bl := CVal.asNames_ok hasn
                          rw [hblv] at hbl
                          rw [hbl] at hl
                          have hbleq : bl = l := by
                            injection hl with hl'
                            injection hl'
                          subst hbleq
                          show tchild.name ∉ bl
                          rw [htn]
                          exact hcb
                      · intro x hx
                        exact add_edge_nodes_mem (hn1 x hx)
            · have htr' : ex.truthy = false := by simp at htr; exact htr
              simp only [Scheduler.processChild, if_neg hd, hbl, hasn, if_neg hcb, hex,
                htr'] at h
              simp at h
              obtain rfl := h
              exact ⟨hinv, rfl, fun x hx => hx⟩

theorem processChildren_inv {item : Task} :
    ∀ (cs : List String) (s s' : Scheduler),
      Scheduler.processChildren item s cs = .ok s' → Inv s →
      Inv s' ∧ s'.processed = s.processed ∧ (∀ x ∈ s.nodes, x ∈ s'.nodes) := by
  intro cs
  induction cs with
  | nil =>
    intro s s' h hinv
    cases h
    exact ⟨hinv, rfl, fun x hx => hx⟩
  | cons c cs ih =>
    intro s s' h hinv
    unfold Scheduler.processChildren at h
    rcases hpc : s.processChild item c with e | s1
    · simp only [hpc] at h
      exact absurd h (by simp)
    · simp only [hpc] at h
      obtain ⟨hinv1, hp1, hn1⟩ := processChild_inv hpc hinv
      obtain ⟨hinv', hp', hn'⟩ := ih s1 s' h hinv1
      exact ⟨hinv', by rw [hp', hp1], fun x hx => hn' x (hn1 x hx)⟩

theorem processItem_inv {s s' : Scheduler} {item : Task}
    (h : Scheduler.processItem s item = .ok s') (hinv : Inv s) :
    Inv s' ∧ s'.processed = s.processed ∧ (∀ x ∈ s.nodes, x ∈ s'.nodes) := by
  unfold Scheduler.processItem at h
  rcases hc : item.children with e | cs
  · simp only [hc] at h
    exact absurd h (by simp)
  · simp only [hc] at h
    exact processChildren_inv cs s s' h hinv

theorem populateLoop_inv :
    ∀ (n : Nat) (s s' : Scheduler), Scheduler.populateLoop n s = .ok s' → Inv s →
      Inv s' ∧ s'.processed = s.processed := by
  intro n
  induction n with
  | zero =>
    intro s s' h hinv
    unfold Scheduler.populateLoop at h
    split at h
    · cases h
      exact ⟨hinv, rfl⟩
    · exact absurd h (by simp)
  | succ n ih =>
    intro s s' h hinv
    unfold Scheduler.populateLoop at h
    split at h
    · cases h
      exact ⟨hinv, rfl⟩
    · rename_i item rest hq
      rcases hpi : Scheduler.processItem { s with queue := rest } item with e | s1
      · simp only [hpi] at h
        exact absurd h (by simp)
      · simp only [hpi] at h
        have hinvq : Inv { s with queue := rest } := hinv
        obtain ⟨hinv1, hp1, _⟩ := processItem_inv hpi hinvq
        obtain ⟨hinv', hp'⟩ := ih s1 s' h hinv1
        exact ⟨hinv', by rw [hp', hp1]⟩

theorem populate_inv {fuel : Nat} {s s' : Scheduler}
    (h : Scheduler.populate fuel s = .ok s') (hinv : Inv s) :
    Inv s' ∧ s'.processed = s.processed := by
  unfold Scheduler.populate at h
  rcases hpl : Scheduler.populateLoop fuel s with s1 | e | _
  · simp only [hpl] at h
    rcases hea : s1.enrichAll s1.nodes with e | u
    · simp only [hea] at h
      exact absurd h (by simp)
    · simp only [hea] at h
      cases h
      exact populateLoop_inv fuel s _ hpl hinv
  · simp only [hpl] at h
    exact absurd h (by simp)
  · simp only [hpl] at h
    exact absurd h (by simp)

theorem append_state_inv :
    ∀ (roots : List String) (s s' : Scheduler), s.append roots = (s', none) → Inv s →
      Inv s' ∧ s'.processed = s.processed := by
  intro roots
  induction roots with
  | nil =>
    intro s s' h hinv
    unfold Scheduler.append at h
    injection h with h1 _
    rw [← h1]
    exact ⟨hinv, rfl⟩
  | cons r rest ih =>
    intro s s' h hinv
    unfold Scheduler.append at h
    rcases ha1 : s.append1 r with e | s1
    · simp only [ha1] at h
      exact absurd h (by simp)
    · simp only [ha1] at h
      obtain ⟨hinv1, hp1, _, _⟩ := append1_inv ha1 hinv
      obtain ⟨hinv', hp'⟩ := ih s1 s' h hinv1
      exact ⟨hinv', by rw [hp', hp1]⟩

theorem init_inv (objs : List Obj) (fc : FullConfig) (fs : FS) :
    Inv (Scheduler.init objs fc fs) := by
  refine ⟨?_, ?_, ?_⟩
  · intro p hp
    simp [Scheduler.init] at hp
  · intro q hq
    simp [Scheduler.init] at hq
  · intro p hp
    simp [Scheduler.init] at hp

theorem processOrder_processed :
    ∀ (ord : List Task) (g : Bool) (s s' : Scheduler),
      Scheduler.processOrder g s ord = (s', none) → s'.processed = s.processed ++ ord := by
  intro ord
  induction ord with
  | nil =>
    intro g s s' h
    unfold Scheduler.processOrder at h
    injection h with h1 _
    rw [← h1]
    simp
  | cons t rest ih =>
    intro g s s' h
    unfold Scheduler.processOrder at h
    by_cases hg : g = true
    · subst hg
      rw [if_pos rfl] at h
      rcases hw : alookup t.config "whitelist" with _ | wl
      · simp only [hw] at h
        exact absurd h (by simp)
      · simp only [hw] at h
        rcases han : wl.asNames with e | ns
        · simp only [han] at h
          exact absurd h (by simp)
        · simp only [han] at h
          rw [ih true _ _ h]
          simp
    · have hg' : g = false := by revert hg; cases g <;> simp
      subst hg'
      rw [if_neg (by simp)] at h
      rw [ih false _ _ h]
      simp

/-! ## C1: the order `process` visits the graph in -/

/-- C1 (amended): for every populated task graph and every edge `A -> B`
(task `A` calls task `B`), a successful `process` run visits `A` strictly
before `B` — the `networkx` topological sort of the caller-to-callee edge
set is top-down (callers first), matching the code's own docstring
("CallStatements are always processed before their target Subroutines"),
not bottom-up as the spec states. -/
theorem process_visits_callers_first (objs : List Obj) (fc : FullConfig) (fs : FS)
    (roots : List String) (fuel : Nat) (g : Bool) (s1 s2 s3 : Scheduler) (a b : Task)
    (happ : (Scheduler.init objs fc fs).append roots = (s1, none))
    (hpop : Scheduler.populate fuel s1 = .ok s2)
    (hproc : s2.process g = (s3, none))
    (hedge : (a, b) ∈ s2.edges) :
    a ∈ s3.processed ∧ b ∈ s3.processed ∧
      s3.processed.indexOf a < s3.processed.indexOf b := by
  obtain ⟨hinv1, hp1⟩ := append_state_inv roots _ s1 happ (init_inv objs fc fs)
  obtain ⟨hinv2, hp2⟩ := populate_inv hpop hinv1
  have hproc0 : s2.processed = [] := by rw [hp2, hp1]; rfl
  unfold Scheduler.process at hproc
  rcases hts : topoSort s2.nodes s2.edges with _ | ord
  · simp only [hts] at hproc
    exact absurd hproc (by simp)
  · simp only [hts] at hproc
    have hord := processOrder_processed ord g s2 s3 hproc
    rw [hproc0, List.nil_append] at hord
    obtain ⟨hen, _, _⟩ := hinv2
    obtain ⟨haN, hbN⟩ := hen (a, b) hedge
    unfold topoSort at hts
    subst hord
    exact ⟨topoGo_mem _ _ _ _ hts a haN, topoGo_mem _ _ _ _ hts b hbN,
      topoGo_order _ _ _ _ a b hts hedge haN hbN⟩

/-- Witness for `process_visits_callers_first` on the populated `d -> k`
world. -/
theorem process_visits_callers_first_witness :
    w1dT ∈ w1s3.processed ∧ w1kT ∈ w1s3.processed ∧
      w1s3.processed.indexOf w1dT < w1s3.processed.indexOf w1kT :=
  process_visits_callers_first w1objs w1fc w1fs ["d"] 10 false w1s1 w1s2 w1s3 w1dT w1kT
    (by decide) (by decide) (by decide) (by decide)

/-- C1 counterexample: in the populated graph `d -> k` (`d` calls `k`),
`process` visits the caller `d` first, so the callee `k` is not visited
strictly before `d` as the claim requires. -/
theorem process_not_bottom_up_cx :
    (w1dT, w1kT) ∈ w1s2.edges ∧
      (w1s2.process false).2 = none ∧
      w1s3.processed = [w1dT, w1kT] ∧
      ¬ w1s3.processed.indexOf w1kT < w1s3.processed.indexOf w1dT := by
  decide

/-! ## C3: blacklisting prunes the edge, not the node -/

/-- C3 (amended): after any `append`/`populate` run, the task graph contains
no edge from a task `T` to a child task whose name is in `T`'s merged
blacklist.  (The blacklisted name can still enter the node set through a
different, non-blacklisting caller — see the counterexample.) -/
theorem no_edge_to_blacklisted_child (objs : List Obj) (fc : FullConfig) (fs : FS)
    (roots : List String) (fuel : Nat) (s1 s2 : Scheduler) (t u : Task) (l : List String)
    (happ : (Scheduler.init objs fc fs).append roots = (s1, none))
    (hpop : Scheduler.populate fuel s1 = .ok s2)
    (hedge : (t, u) ∈ s2.edges)
    (hbl : alookup t.config "blacklist" = some (.names l)) :
    u.name ∉ l := by
  obtain ⟨hinv1, _⟩ := append_state_inv roots _ s1 happ (init_inv objs fc fs)
  obtain ⟨⟨_, _, hbs⟩, _⟩ := populate_inv hpop hinv1
  exact hbs (t, u) hedge l hbl

/-- Witness for `no_edge_to_blacklisted_child` on the `t`/`u`/`c` world, at
the edge `u -> c` whose source has an empty blacklist. -/
theorem no_edge_to_blacklisted_child_witness :
    (c3uT, c3cT) ∈ c3s2.edges ∧ c3cT.name ∉ ([] : List String) :=
  ⟨by decide,
    no_edge_to_blacklisted_child c3objs c3fc c3fs ["t", "u"] 10 c3s1 c3s2 c3uT c3cT []
      (by decide) (by decide) (by decide) (by decide)⟩

/-- C3 counterexample: `t` blacklists `c`, yet `c` is reachable from `u`
(which does not blacklist it), so after `populate` the graph does contain a
node named `c` — only the edge `t -> c` is suppressed.  This refutes the
claim that a blacklisted name is absent from the node set regardless of
other paths. -/
theorem blacklisted_node_reachable_elsewhere_cx :
    Scheduler.populate 10 c3s1 = .ok c3s2 ∧
      alookup (mergeConfig c3fc "t") "blacklist" = some (.names ["c"]) ∧
      (∃ x ∈ c3s2.nodes, x.name = "c") ∧
      (c3uT, c3cT) ∈ c3s2.edges ∧ c3cT.name = "c" ∧
      ∀ p ∈ c3s2.edges, ¬(p.1.name = "t" ∧ p.2.name = "c") := by
  decide

end Loki
